import Mathlib

/-!
# Verification of the libfds converters core

Shallow embedding of `src/include/libfds/converters.h` and
`src/src/converters/converters.c` (IPFIX data-type codecs).

Data fields are modelled as `List Nat` of byte values; every C function that
writes into a caller-supplied field is modelled as a function returning the new
field contents together with its return code, so that "the field is unchanged"
is expressible.  Machine integers are modelled as `Nat`/`Int` with explicit
`% 2^w` at the points where the C code truncates.
-/

/-- Return codes of the library (`FDS_OK`, `FDS_ERR_*` from `libfds/api.h`). -/
inductive FdsRet where
  | OK
  | ERR_ARG
  | ERR_TRUNC
  | ERR_BUFFER
  | ERR_FORMAT
  deriving DecidableEq, Repr

/-- Big-endian byte representation of the low `n` bytes of `v`
(most significant byte first); the model of `htobe64`/`htonl`/`htons`
followed by a `memcpy` of `n` bytes. -/
def beBytes : Nat → Nat → List Nat
  | 0, _ => []
  | n + 1, v => beBytes n (v / 256) ++ [v % 256]

/-- Read a big-endian byte list as an unsigned number; the model of
`be64toh`/`ntohl`/`ntohs` on a field. -/
def fromBeBytes (l : List Nat) : Nat :=
  l.foldl (fun acc b => acc * 256 + b) 0

/-- Writing `new` at the start of a field: the bytes after the written
region keep their previous values. -/
def writeBytes (field new : List Nat) : List Nat :=
  new ++ field.drop new.length

/-- Two's-complement reinterpretation of a `w`-bit unsigned value as signed
(the model of a cast such as `(int8_t) x`). -/
def toSigned (w : Nat) (u : Nat) : Int :=
  if u < 2 ^ (w - 1) then (u : Int) else (u : Int) - 2 ^ w

/-- `w`-bit unsigned reinterpretation of a signed value (the model of a cast
such as `(uint32_t) x` applied to a signed integer). -/
def toUnsigned (w : Nat) (v : Int) : Nat :=
  (v % (2 ^ w : Int)).toNat

/-- `fds_set_uint_be` (converters.h): write an unsigned integer into a
big-endian field of `size` bytes, saturating to all-ones on overflow. -/
def fds_set_uint_be (field : List Nat) (size : Nat) (value : Nat) :
    List Nat × FdsRet :=
  if size = 8 then
    (writeBytes field (beBytes 8 value), .OK)
  else if size = 4 then
    if value > 0xFFFFFFFF then
      (writeBytes field (beBytes 4 0xFFFFFFFF), .ERR_TRUNC)
    else
      (writeBytes field (beBytes 4 value), .OK)
  else if size = 2 then
    if value > 0xFFFF then
      (writeBytes field (beBytes 2 0xFFFF), .ERR_TRUNC)
    else
      (writeBytes field (beBytes 2 value), .OK)
  else if size = 1 then
    if value > 0xFF then
      (writeBytes field (beBytes 1 0xFF), .ERR_TRUNC)
    else
      (writeBytes field (beBytes 1 value), .OK)
  -- Other sizes (3,5,6,7)
  else if size = 0 ∨ size > 8 then
    (field, .ERR_ARG)
  else if value ≥ 2 ^ (size * 8) then
    -- value = UINT64_MAX; memcpy(field, &value, size): all bits set
    (writeBytes field (List.replicate size 0xFF), .ERR_TRUNC)
  else
    -- memcpy of the low `size` bytes of htobe64(value)
    (writeBytes field ((beBytes 8 value).drop (8 - size)), .OK)

/-- `fds_set_int_be` (converters.h): write a signed integer into a big-endian
field of `size` bytes, with two-sided saturation. -/
def fds_set_int_be (field : List Nat) (size : Nat) (value : Int) :
    List Nat × FdsRet :=
  if size = 8 then
    (writeBytes field (beBytes 8 (toUnsigned 64 value)), .OK)
  else if size = 4 then
    if value > 0x7FFFFFFF then
      (writeBytes field (beBytes 4 0x7FFFFFFF), .ERR_TRUNC)
    else if value < -0x80000000 then
      (writeBytes field (beBytes 4 (toUnsigned 32 (-0x80000000))), .ERR_TRUNC)
    else
      (writeBytes field (beBytes 4 (toUnsigned 32 value)), .OK)
  else if size = 2 then
    if value > 0x7FFF then
      (writeBytes field (beBytes 2 0x7FFF), .ERR_TRUNC)
    else if value < -0x8000 then
      (writeBytes field (beBytes 2 (toUnsigned 16 (-0x8000))), .ERR_TRUNC)
    else
      (writeBytes field (beBytes 2 (toUnsigned 16 value)), .OK)
  else if size = 1 then
    if value > 0x7F then
      (writeBytes field (beBytes 1 0x7F), .ERR_TRUNC)
    else if value < -0x80 then
      (writeBytes field (beBytes 1 (toUnsigned 8 (-0x80))), .ERR_TRUNC)
    else
      (writeBytes field (beBytes 1 (toUnsigned 8 value)), .OK)
  -- Other sizes (3,5,6,7)
  else if size = 0 ∨ size > 8 then
    (field, .ERR_ARG)
  else
    -- over_limit = INT64_MAX >> ((8 - size) * 8)
    let over_limit : Int := 2 ^ (size * 8 - 1) - 1
    if value > over_limit then
      (writeBytes field ((beBytes 8 (toUnsigned 64 over_limit)).drop (8 - size)),
       .ERR_TRUNC)
    else if value < -(over_limit + 1) then
      -- ~over_limit = -(over_limit + 1)
      (writeBytes field ((beBytes 8 (toUnsigned 64 (-(over_limit + 1)))).drop (8 - size)),
       .ERR_TRUNC)
    else
      (writeBytes field ((beBytes 8 (toUnsigned 64 value)).drop (8 - size)), .OK)

instance {ε α : Type} [DecidableEq ε] [DecidableEq α] : DecidableEq (Except ε α)
  | .ok a, .ok b =>
    if h : a = b then .isTrue (by rw [h])
    else .isFalse (by intro hc; cases hc; exact h rfl)
  | .ok _, .error _ => .isFalse (by intro hc; cases hc)
  | .error _, .ok _ => .isFalse (by intro hc; cases hc)
  | .error e, .error f =>
    if h : e = f then .isTrue (by rw [h])
    else .isFalse (by intro hc; cases hc; exact h rfl)

/-- `fds_get_uint_be` (converters.h): read an unsigned big-endian integer of
`size` bytes.  `.ok v` models `FDS_OK` with `*value = v`. -/
def fds_get_uint_be (field : List Nat) (size : Nat) : Except FdsRet Nat :=
  if size = 8 then .ok (fromBeBytes (field.take 8))
  else if size = 4 then .ok (fromBeBytes (field.take 4))
  else if size = 2 then .ok (fromBeBytes (field.take 2))
  else if size = 1 then .ok (fromBeBytes (field.take 1))
  -- Other sizes (3,5,6,7)
  else if size = 0 ∨ size > 8 then
    .error .ERR_ARG
  else
    -- memcpy into the low bytes of an 8-byte zero scratch value
    .ok (fromBeBytes (List.replicate (8 - size) 0 ++ field.take size))

/-- `fds_get_int_be` (converters.h): read a signed big-endian integer of
`size` bytes, sign-extending from the top bit of the first byte. -/
def fds_get_int_be (field : List Nat) (size : Nat) : Except FdsRet Int :=
  if size = 8 then .ok (toSigned 64 (fromBeBytes (field.take 8)))
  else if size = 4 then .ok (toSigned 32 (fromBeBytes (field.take 4)))
  else if size = 2 then .ok (toSigned 16 (fromBeBytes (field.take 2)))
  else if size = 1 then .ok (toSigned 8 (fromBeBytes (field.take 1)))
  -- Other sizes (3,5,6,7)
  else if size = 0 ∨ size > 8 then
    .error .ERR_ARG
  else
    -- new_value preset to -1 (all bytes 0xFF) or 0 by the sign bit, then
    -- memcpy of the field into its low bytes, read back as int64
    let ext : Nat := if field.getD 0 0 &&& 0x80 ≠ 0 then 0xFF else 0
    .ok (toSigned 64
      (fromBeBytes (List.replicate (8 - size) ext ++ field.take size)))

/-! ## Arithmetic lemmas about the byte representation -/

theorem beBytes_length (n v : Nat) : (beBytes n v).length = n := by
  induction n generalizing v with
  | zero => rfl
  | succ n ih => simp [beBytes, ih]

theorem fromBeBytes_cons_aux (l : List Nat) (acc : Nat) :
    l.foldl (fun acc b => acc * 256 + b) acc =
      acc * 256 ^ l.length + fromBeBytes l := by
  induction l generalizing acc with
  | nil => simp [fromBeBytes]
  | cons b t ih =>
    simp only [List.foldl_cons, List.length_cons, fromBeBytes] at *
    rw [ih (acc * 256 + b), ih (0 * 256 + b)]
    ring

theorem fromBeBytes_append (a b : List Nat) :
    fromBeBytes (a ++ b) = fromBeBytes a * 256 ^ b.length + fromBeBytes b := by
  simp only [fromBeBytes, List.foldl_append]
  exact fromBeBytes_cons_aux b _

theorem fromBeBytes_beBytes (n v : Nat) :
    fromBeBytes (beBytes n v) = v % 256 ^ n := by
  induction n generalizing v with
  | zero => simp [beBytes, fromBeBytes, Nat.mod_one]
  | succ n ih =>
    rw [beBytes, fromBeBytes_append, ih]
    simp only [fromBeBytes, List.foldl_cons, List.foldl_nil, List.length_cons,
      List.length_nil, pow_succ, pow_zero, zero_mul, zero_add, pow_one]
    have hdvd : (256 : Nat) ∣ 256 * 256 ^ n := ⟨256 ^ n, rfl⟩
    rw [Nat.mul_comm (256 ^ n) 256, ← Nat.mod_mul_right_div_self,
      ← Nat.mod_mod_of_dvd v hdvd]
    generalize v % (256 * 256 ^ n) = x
    omega

theorem fromBeBytes_replicate_zero (k : Nat) (l : List Nat) :
    fromBeBytes (List.replicate k 0 ++ l) = fromBeBytes l := by
  rw [fromBeBytes_append]
  have : fromBeBytes (List.replicate k 0) = 0 := by
    induction k with
    | zero => rfl
    | succ k ih =>
      rw [List.replicate_succ]
      simpa [fromBeBytes] using congrArg (fun x => x) ih
  simp [this]

theorem beBytes_split (m n v : Nat) :
    beBytes (m + n) v = beBytes m (v / 256 ^ n) ++ beBytes n v := by
  induction n generalizing v with
  | zero => simp [beBytes]
  | succ n ih =>
    have h : m + (n + 1) = (m + n) + 1 := by omega
    rw [h, beBytes, ih]
    rw [Nat.div_div_eq_div_mul, Nat.mul_comm 256 (256 ^ n), ← pow_succ]
    rw [List.append_assoc]
    rfl

theorem beBytes_drop (s v : Nat) (hs : s ≤ 8) :
    (beBytes 8 v).drop (8 - s) = beBytes s v := by
  have h8 : 8 = (8 - s) + s := by omega
  rw [h8, beBytes_split, List.drop_append_of_le_length (by simp [beBytes_length])]
  simp [beBytes_length]

/-- `fds_set_float_be` (converters.c).  The 8-byte branch stores the IEEE-754
binary64 bit pattern (modelled by its `Nat` value `bits`) in big-endian order.
The 4-byte branch converts the double to a float, saturating finite values
beyond ±FLT_MAX; that host conversion is passed in as the parameter `conv32`
(double bits ↦ float bits × saturation flag), since IEEE rounding is outside
this embedding.  The size check and the untouched-field behaviour are exactly
those of the source. -/
def fds_set_float_be (conv32 : Nat → Nat × Bool) (field : List Nat)
    (size : Nat) (bits : Nat) : List Nat × FdsRet :=
  if size = 8 then
    (writeBytes field (beBytes 8 bits), .OK)
  else if size = 4 then
    let r := conv32 bits
    (writeBytes field (beBytes 4 r.1), if r.2 then .ERR_TRUNC else .OK)
  else
    (field, .ERR_ARG)

/-! ## More helper lemmas -/

theorem take_append_of_length (l r : List Nat) (n : Nat) (h : l.length = n) :
    (l ++ r).take n = l := by
  subst h
  exact List.take_left l r

theorem beBytes_drop_eq (k s v : Nat) (h : k + s = 8) :
    (beBytes 8 v).drop k = beBytes s v := by
  have h8 : (8 : Nat) = k + s := h.symm
  rw [h8, beBytes_split]
  rw [List.drop_append_of_le_length (by simp [beBytes_length])]
  have hnil : (beBytes k (v / 256 ^ s)).drop k = [] :=
    List.drop_eq_nil_of_le (by simp [beBytes_length])
  simp [hnil]

theorem beBytes_one (v : Nat) : beBytes 1 v = [v % 256] := rfl

theorem beBytes_head (s v : Nat) (h : 1 ≤ s) :
    (beBytes s v).getD 0 0 = v / 256 ^ (s - 1) % 256 := by
  obtain ⟨t, rfl⟩ : ∃ t, s = 1 + t := ⟨s - 1, by omega⟩
  rw [beBytes_split, beBytes_one]
  have ht : 1 + t - 1 = t := by omega
  rw [ht]
  simp [List.getD]

set_option maxRecDepth 4096 in
/-- For a byte value, the `& 0x80` sign-bit test is the `128 ≤ b` test. -/
theorem byte_and_128 : ∀ b : Nat, b < 256 → ((b &&& 128 ≠ 0) ↔ 128 ≤ b) := by
  decide

theorem fromBeBytes_replicate_255 (k : Nat) :
    fromBeBytes (List.replicate k 255) = 256 ^ k - 1 := by
  induction k with
  | zero => simp [fromBeBytes]
  | succ k ih =>
    rw [List.replicate_succ']
    rw [show List.replicate k 255 ++ [255] =
      List.replicate k 255 ++ [255] from rfl, fromBeBytes_append, ih]
    have : (0 : Nat) < 256 ^ k := Nat.pos_pow_of_pos _ (by norm_num)
    simp [fromBeBytes, pow_succ]
    omega

/-! ## C5: saturation at width 1 -/

/-- C5: `fds_set_uint_be(field, 1, 256)` saturates to 255 and returns
`FDS_ERR_TRUNC`, and decoding the written byte yields 255 with `FDS_OK`;
`fds_set_int_be(field, 1, -200)` saturates to `INT8_MIN` and returns
`FDS_ERR_TRUNC`, and decoding yields -128 with `FDS_OK`. -/
theorem set_width1_saturates :
    fds_set_uint_be [0] 1 256 = ([255], .ERR_TRUNC) ∧
    fds_get_uint_be (fds_set_uint_be [0] 1 256).1 1 = .ok 255 ∧
    fds_set_int_be [0] 1 (-200) = ([128], .ERR_TRUNC) ∧
    fds_get_int_be (fds_set_int_be [0] 1 (-200)).1 1 = .ok (-128) := by
  refine ⟨by decide, by decide, by decide, by decide⟩

/-! ## C8: invalid sizes leave the field untouched -/

/-- C8: with size 0 or size > 8, `fds_set_uint_be` and `fds_set_int_be`
return `FDS_ERR_ARG` and leave every byte of the field unchanged; with any
size other than 4 or 8 (including sizes 1, 2, 3, 5, 6, 7),
`fds_set_float_be` does the same (for every host double→float conversion
function). -/
theorem set_invalid_size_unchanged (field : List Nat) (size : Nat)
    (u : Nat) (i : Int) (conv32 : Nat → Nat × Bool) (bits : Nat) :
    (size = 0 ∨ size > 8 →
      fds_set_uint_be field size u = (field, .ERR_ARG) ∧
      fds_set_int_be field size i = (field, .ERR_ARG)) ∧
    (size ≠ 4 → size ≠ 8 →
      fds_set_float_be conv32 field size bits = (field, .ERR_ARG)) := by
  constructor
  · intro h
    have h8 : size ≠ 8 := by omega
    have h4 : size ≠ 4 := by omega
    have h2 : size ≠ 2 := by omega
    have h1 : size ≠ 1 := by omega
    exact ⟨by simp [fds_set_uint_be, h8, h4, h2, h1, h],
      by simp [fds_set_int_be, h8, h4, h2, h1, h]⟩
  · intro h4 h8
    simp [fds_set_float_be, h8, h4]

/-- Witness for C8: the integer setters at size 9, the float setter at
size 2 (a size between 1 and 8 that is neither 4 nor 8). -/
theorem set_invalid_size_unchanged_witness :
    fds_set_uint_be [1, 2] 9 77 = ([1, 2], .ERR_ARG) ∧
    fds_set_int_be [1, 2] 9 (-77) = ([1, 2], .ERR_ARG) ∧
    fds_set_float_be (fun b => (b, false)) [1, 2] 2 3 = ([1, 2], .ERR_ARG) := by
  have h9 := set_invalid_size_unchanged [1, 2] 9 77 (-77) (fun b => (b, false)) 3
  have h2 := set_invalid_size_unchanged [1, 2] 2 77 (-77) (fun b => (b, false)) 3
  exact ⟨(h9.1 (by omega)).1, (h9.1 (by omega)).2, h2.2 (by omega) (by omega)⟩

theorem beBytes_ne_nil (s v : Nat) (h : 1 ≤ s) : beBytes s v ≠ [] := by
  intro hc
  have hl := beBytes_length s v
  rw [hc] at hl
  simp at hl
  omega

theorem getD_zero_append (l r : List Nat) (h : l ≠ []) :
    (l ++ r).getD 0 0 = l.getD 0 0 := by
  cases l with
  | nil => exact absurd rfl h
  | cons a t => simp [List.getD]

theorem beBytes_mod (n v : Nat) : beBytes n (v % 256 ^ n) = beBytes n v := by
  induction n generalizing v with
  | zero => rfl
  | succ n ih =>
    have h1 : v % 256 ^ (n + 1) / 256 = v / 256 % 256 ^ n := by
      rw [pow_succ, Nat.mul_comm (256 ^ n) 256, Nat.mod_mul_right_div_self]
    have h2 : v % 256 ^ (n + 1) % 256 = v % 256 :=
      Nat.mod_mod_of_dvd v (dvd_pow_self 256 (Nat.succ_ne_zero n))
    simp only [beBytes]
    rw [h1, h2, ih]

theorem toUnsigned_lt (w : Nat) (v : Int) : toUnsigned w v < 2 ^ w := by
  unfold toUnsigned
  have hpos : (0 : Int) < 2 ^ w := by positivity
  have h1 : 0 ≤ v % (2 ^ w : Int) := Int.emod_nonneg v (by positivity)
  have h2 : v % (2 ^ w : Int) < 2 ^ w := Int.emod_lt_of_pos v hpos
  have h3 : ((v % (2 ^ w : Int)).toNat : Int) = v % 2 ^ w := Int.toNat_of_nonneg h1
  have h4 : ((v % (2 ^ w : Int)).toNat : Int) < ((2 ^ w : Nat) : Int) := by
    rw [h3]
    push_cast
    exact h2
  exact_mod_cast h4

theorem toSigned_toUnsigned (w : Nat) (v : Int) (hw : 1 ≤ w)
    (h1 : -(2 ^ (w - 1) : Int) ≤ v) (h2 : v < 2 ^ (w - 1)) :
    toSigned w (toUnsigned w v) = v := by
  obtain ⟨N, hN⟩ : ∃ N : Nat, (2 : Nat) ^ (w - 1) = N := ⟨_, rfl⟩
  have hNpos : 0 < N := by
    rw [← hN]
    positivity
  have hw2 : (2 : Nat) ^ w = 2 * N := by
    have hww : w = (w - 1) + 1 := by omega
    rw [hww, pow_succ, ← hN]
    ring
  have hNi : ((2 : Int)) ^ (w - 1) = (N : Int) := by
    rw [← hN]
    push_cast
    ring
  have hwi : ((2 : Int)) ^ w = 2 * (N : Int) := by
    have hcast : (((2 : Nat) ^ w : Nat) : Int) = (((2 * N : Nat) : Nat) : Int) :=
      congrArg (fun x : Nat => (x : Int)) hw2
    push_cast at hcast
    linarith
  rw [hNi] at h1 h2
  unfold toUnsigned toSigned
  rw [hwi, hN]
  rcases le_or_lt 0 v with hv | hv
  · have hmod : v % (2 * (N : Int)) = v := Int.emod_eq_of_lt hv (by omega)
    rw [hmod]
    split_ifs <;> omega
  · have hmod : v % (2 * (N : Int)) = v + 2 * N := by
      have h3 : (v + 2 * (N : Int) * 1) % (2 * (N : Int)) = v % (2 * (N : Int)) :=
        Int.add_mul_emod_self_left v (2 * (N : Int)) 1
      rw [show v + 2 * (N : Int) * 1 = v + 2 * N by ring] at h3
      rw [← h3, Int.emod_eq_of_lt (by omega) (by omega)]
    rw [hmod]
    split_ifs <;> omega

/-! ## C1: lossless integer round trips for all widths 1..8 -/

theorem set_uint_ok (field : List Nat) (s v : Nat) (h1 : 1 ≤ s) (h2 : s ≤ 8)
    (hv : v < 256 ^ s) :
    fds_set_uint_be field s v = (beBytes s v ++ field.drop s, .OK) := by
  interval_cases s
  · norm_num at hv
    have hg : ¬ (255 < v) := by omega
    simp [fds_set_uint_be, hg, writeBytes, beBytes_length]
  · norm_num at hv
    have hg : ¬ (65535 < v) := by omega
    simp [fds_set_uint_be, hg, writeBytes, beBytes_length]
  · norm_num at hv
    simp [fds_set_uint_be, writeBytes, beBytes_length,
      beBytes_drop_eq 5 3 v (by norm_num)]
    omega
  · norm_num at hv
    have hg : ¬ (4294967295 < v) := by omega
    simp [fds_set_uint_be, hg, writeBytes, beBytes_length]
  · norm_num at hv
    simp [fds_set_uint_be, writeBytes, beBytes_length,
      beBytes_drop_eq 3 5 v (by norm_num)]
    omega
  · norm_num at hv
    simp [fds_set_uint_be, writeBytes, beBytes_length,
      beBytes_drop_eq 2 6 v (by norm_num)]
    omega
  · norm_num at hv
    simp [fds_set_uint_be, writeBytes, beBytes_length,
      beBytes_drop_eq 1 7 v (by norm_num)]
    omega
  · simp [fds_set_uint_be, writeBytes, beBytes_length]

theorem fromBeBytes_cons_zero (l : List Nat) :
    fromBeBytes (0 :: l) = fromBeBytes l := by
  simp [fromBeBytes]

theorem get_uint_beBytes (s v : Nat) (h1 : 1 ≤ s) (h2 : s ≤ 8)
    (hv : v < 256 ^ s) (rest : List Nat) :
    fds_get_uint_be (beBytes s v ++ rest) s = .ok v := by
  interval_cases s <;>
    · norm_num at hv
      simp [fds_get_uint_be, take_append_of_length _ rest _ (beBytes_length _ v),
        fromBeBytes_cons_zero, fromBeBytes_beBytes, Nat.mod_eq_of_lt hv]

theorem fromBeBytes_cons (b : Nat) (l : List Nat) :
    fromBeBytes (b :: l) = b * 256 ^ l.length + fromBeBytes l := by
  have h := fromBeBytes_cons_aux l b
  simpa [fromBeBytes] using h

theorem set_int_ok (field : List Nat) (s : Nat) (v : Int) (h1 : 1 ≤ s)
    (h2 : s ≤ 8) (hlo : -(2 ^ (8 * s - 1) : Int) ≤ v)
    (hhi : v < 2 ^ (8 * s - 1)) :
    fds_set_int_be field s v =
      (beBytes s (toUnsigned (8 * s) v) ++ field.drop s, .OK) := by
  interval_cases s
  · norm_num at hlo hhi
    have hg1 : ¬ (v > (127 : Int)) := by omega
    have hg2 : ¬ (v < (-128 : Int)) := by omega
    simp [fds_set_int_be, hg1, hg2, writeBytes, beBytes_length]
  · norm_num at hlo hhi
    have hg1 : ¬ (v > (32767 : Int)) := by omega
    have hg2 : ¬ (v < (-32768 : Int)) := by omega
    simp [fds_set_int_be, hg1, hg2, writeBytes, beBytes_length]
  · norm_num at hlo hhi
    have hmod : beBytes 3 (toUnsigned 64 v) = beBytes 3 (toUnsigned 24 v) := by
      rw [← beBytes_mod 3 (toUnsigned 64 v), ← beBytes_mod 3 (toUnsigned 24 v)]
      congr 1
      unfold toUnsigned
      norm_num
      omega
    have hg1 : ¬ (v > (8388607 : Int)) := by omega
    have hg2 : ¬ (v < (-8388608 : Int)) := by omega
    simp [fds_set_int_be, hg1, hg2, writeBytes, beBytes_length,
      beBytes_drop_eq 5 3 (toUnsigned 64 v) (by norm_num), hmod]
  · norm_num at hlo hhi
    have hg1 : ¬ (v > (2147483647 : Int)) := by omega
    have hg2 : ¬ (v < (-2147483648 : Int)) := by omega
    simp [fds_set_int_be, hg1, hg2, writeBytes, beBytes_length]
  · norm_num at hlo hhi
    have hmod : beBytes 5 (toUnsigned 64 v) = beBytes 5 (toUnsigned 40 v) := by
      rw [← beBytes_mod 5 (toUnsigned 64 v), ← beBytes_mod 5 (toUnsigned 40 v)]
      congr 1
      unfold toUnsigned
      norm_num
      omega
    have hg1 : ¬ (v > (549755813887 : Int)) := by omega
    have hg2 : ¬ (v < (-549755813888 : Int)) := by omega
    simp [fds_set_int_be, hg1, hg2, writeBytes, beBytes_length,
      beBytes_drop_eq 3 5 (toUnsigned 64 v) (by norm_num), hmod]
  · norm_num at hlo hhi
    have hmod : beBytes 6 (toUnsigned 64 v) = beBytes 6 (toUnsigned 48 v) := by
      rw [← beBytes_mod 6 (toUnsigned 64 v), ← beBytes_mod 6 (toUnsigned 48 v)]
      congr 1
      unfold toUnsigned
      norm_num
      omega
    have hg1 : ¬ (v > (140737488355327 : Int)) := by omega
    have hg2 : ¬ (v < (-140737488355328 : Int)) := by omega
    simp [fds_set_int_be, hg1, hg2, writeBytes, beBytes_length,
      beBytes_drop_eq 2 6 (toUnsigned 64 v) (by norm_num), hmod]
  · norm_num at hlo hhi
    have hmod : beBytes 7 (toUnsigned 64 v) = beBytes 7 (toUnsigned 56 v) := by
      rw [← beBytes_mod 7 (toUnsigned 64 v), ← beBytes_mod 7 (toUnsigned 56 v)]
      congr 1
      unfold toUnsigned
      norm_num
      omega
    have hg1 : ¬ (v > (36028797018963967 : Int)) := by omega
    have hg2 : ¬ (v < (-36028797018963968 : Int)) := by omega
    simp [fds_set_int_be, hg1, hg2, writeBytes, beBytes_length,
      beBytes_drop_eq 1 7 (toUnsigned 64 v) (by norm_num), hmod]
  · simp [fds_set_int_be, writeBytes, beBytes_length]

theorem get_int_beBytes (s u : Nat) (h1 : 1 ≤ s) (h2 : s ≤ 8)
    (hu : u < 256 ^ s) (rest : List Nat) :
    fds_get_int_be (beBytes s u ++ rest) s = .ok (toSigned (8 * s) u) := by
  interval_cases s
  · norm_num at hu
    simp [fds_get_int_be, take_append_of_length _ rest _ (beBytes_length _ u),
      fromBeBytes_beBytes, Nat.mod_eq_of_lt hu]
  · norm_num at hu
    simp [fds_get_int_be, take_append_of_length _ rest _ (beBytes_length _ u),
      fromBeBytes_beBytes, Nat.mod_eq_of_lt hu]
  · -- width 3
    norm_num at hu
    have hne : beBytes 3 u ≠ [] := beBytes_ne_nil 3 u (by norm_num)
    have hhead : (beBytes 3 u ++ rest).getD 0 0 = u / 65536 % 256 := by
      rw [getD_zero_append _ _ hne, beBytes_head 3 u (by norm_num)]
      norm_num
    have hblt : u / 65536 % 256 < 256 := Nat.mod_lt _ (by norm_num)
    have htake := take_append_of_length (beBytes 3 u) rest 3 (beBytes_length 3 u)
    rcases lt_or_le u 8388608 with hcase | hcase
    · have hbit : ¬ ((beBytes 3 u ++ rest).getD 0 0 &&& 128 ≠ 0) := by
        rw [hhead, byte_and_128 _ hblt]
        omega
      simp only [fds_get_int_be, if_neg (by norm_num : ¬ (3 : Nat) = 8),
        if_neg (by norm_num : ¬ (3 : Nat) = 4), if_neg (by norm_num : ¬ (3 : Nat) = 2),
        if_neg (by norm_num : ¬ (3 : Nat) = 1),
        if_neg (by norm_num : ¬ ((3 : Nat) = 0 ∨ 3 > 8)), if_neg hbit, htake]
      norm_num [fromBeBytes_replicate_zero, fromBeBytes_cons_zero,
        fromBeBytes_beBytes]
      unfold toSigned
      split_ifs <;> omega
    · have hbit : ((beBytes 3 u ++ rest).getD 0 0 &&& 128 ≠ 0) := by
        rw [hhead, byte_and_128 _ hblt]
        omega
      simp only [fds_get_int_be, if_neg (by norm_num : ¬ (3 : Nat) = 8),
        if_neg (by norm_num : ¬ (3 : Nat) = 4), if_neg (by norm_num : ¬ (3 : Nat) = 2),
        if_neg (by norm_num : ¬ (3 : Nat) = 1),
        if_neg (by norm_num : ¬ ((3 : Nat) = 0 ∨ 3 > 8)), if_pos hbit, htake]
      norm_num [fromBeBytes_append, fromBeBytes_replicate_255, beBytes_length,
        fromBeBytes_cons, fromBeBytes_beBytes]
      unfold toSigned
      split_ifs <;> omega
  · norm_num at hu
    simp [fds_get_int_be, take_append_of_length _ rest _ (beBytes_length _ u),
      fromBeBytes_beBytes, Nat.mod_eq_of_lt hu]
  · -- width 5
    norm_num at hu
    have hne : beBytes 5 u ≠ [] := beBytes_ne_nil 5 u (by norm_num)
    have hhead : (beBytes 5 u ++ rest).getD 0 0 = u / 4294967296 % 256 := by
      rw [getD_zero_append _ _ hne, beBytes_head 5 u (by norm_num)]
      norm_num
    have hblt : u / 4294967296 % 256 < 256 := Nat.mod_lt _ (by norm_num)
    have htake := take_append_of_length (beBytes 5 u) rest 5 (beBytes_length 5 u)
    rcases lt_or_le u 549755813888 with hcase | hcase
    · have hbit : ¬ ((beBytes 5 u ++ rest).getD 0 0 &&& 128 ≠ 0) := by
        rw [hhead, byte_and_128 _ hblt]
        omega
      simp only [fds_get_int_be, if_neg (by norm_num : ¬ (5 : Nat) = 8),
        if_neg (by norm_num : ¬ (5 : Nat) = 4), if_neg (by norm_num : ¬ (5 : Nat) = 2),
        if_neg (by norm_num : ¬ (5 : Nat) = 1),
        if_neg (by norm_num : ¬ ((5 : Nat) = 0 ∨ 5 > 8)), if_neg hbit, htake]
      norm_num [fromBeBytes_replicate_zero, fromBeBytes_cons_zero,
        fromBeBytes_beBytes]
      unfold toSigned
      split_ifs <;> omega
    · have hbit : ((beBytes 5 u ++ rest).getD 0 0 &&& 128 ≠ 0) := by
        rw [hhead, byte_and_128 _ hblt]
        omega
      simp only [fds_get_int_be, if_neg (by norm_num : ¬ (5 : Nat) = 8),
        if_neg (by norm_num : ¬ (5 : Nat) = 4), if_neg (by norm_num : ¬ (5 : Nat) = 2),
        if_neg (by norm_num : ¬ (5 : Nat) = 1),
        if_neg (by norm_num : ¬ ((5 : Nat) = 0 ∨ 5 > 8)), if_pos hbit, htake]
      norm_num [fromBeBytes_append, fromBeBytes_replicate_255, beBytes_length,
        fromBeBytes_cons, fromBeBytes_beBytes]
      unfold toSigned
      split_ifs <;> omega
  · -- width 6
    norm_num at hu
    have hne : beBytes 6 u ≠ [] := beBytes_ne_nil 6 u (by norm_num)
    have hhead : (beBytes 6 u ++ rest).getD 0 0 = u / 1099511627776 % 256 := by
      rw [getD_zero_append _ _ hne, beBytes_head 6 u (by norm_num)]
      norm_num
    have hblt : u / 1099511627776 % 256 < 256 := Nat.mod_lt _ (by norm_num)
    have htake := take_append_of_length (beBytes 6 u) rest 6 (beBytes_length 6 u)
    rcases lt_or_le u 140737488355328 with hcase | hcase
    · have hbit : ¬ ((beBytes 6 u ++ rest).getD 0 0 &&& 128 ≠ 0) := by
        rw [hhead, byte_and_128 _ hblt]
        omega
      simp only [fds_get_int_be, if_neg (by norm_num : ¬ (6 : Nat) = 8),
        if_neg (by norm_num : ¬ (6 : Nat) = 4), if_neg (by norm_num : ¬ (6 : Nat) = 2),
        if_neg (by norm_num : ¬ (6 : Nat) = 1),
        if_neg (by norm_num : ¬ ((6 : Nat) = 0 ∨ 6 > 8)), if_neg hbit, htake]
      norm_num [fromBeBytes_replicate_zero, fromBeBytes_cons_zero,
        fromBeBytes_beBytes]
      unfold toSigned
      split_ifs <;> omega
    · have hbit : ((beBytes 6 u ++ rest).getD 0 0 &&& 128 ≠ 0) := by
        rw [hhead, byte_and_128 _ hblt]
        omega
      simp only [fds_get_int_be, if_neg (by norm_num : ¬ (6 : Nat) = 8),
        if_neg (by norm_num : ¬ (6 : Nat) = 4), if_neg (by norm_num : ¬ (6 : Nat) = 2),
        if_neg (by norm_num : ¬ (6 : Nat) = 1),
        if_neg (by norm_num : ¬ ((6 : Nat) = 0 ∨ 6 > 8)), if_pos hbit, htake]
      norm_num [fromBeBytes_append, fromBeBytes_replicate_255, beBytes_length,
        fromBeBytes_cons, fromBeBytes_beBytes]
      unfold toSigned
      split_ifs <;> omega
  · -- width 7
    norm_num at hu
    have hne : beBytes 7 u ≠ [] := beBytes_ne_nil 7 u (by norm_num)
    have hhead : (beBytes 7 u ++ rest).getD 0 0 = u / 281474976710656 % 256 := by
      rw [getD_zero_append _ _ hne, beBytes_head 7 u (by norm_num)]
      norm_num
    have hblt : u / 281474976710656 % 256 < 256 := Nat.mod_lt _ (by norm_num)
    have htake := take_append_of_length (beBytes 7 u) rest 7 (beBytes_length 7 u)
    rcases lt_or_le u 36028797018963968 with hcase | hcase
    · have hbit : ¬ ((beBytes 7 u ++ rest).getD 0 0 &&& 128 ≠ 0) := by
        rw [hhead, byte_and_128 _ hblt]
        omega
      simp only [fds_get_int_be, if_neg (by norm_num : ¬ (7 : Nat) = 8),
        if_neg (by norm_num : ¬ (7 : Nat) = 4), if_neg (by norm_num : ¬ (7 : Nat) = 2),
        if_neg (by norm_num : ¬ (7 : Nat) = 1),
        if_neg (by norm_num : ¬ ((7 : Nat) = 0 ∨ 7 > 8)), if_neg hbit, htake]
      norm_num [fromBeBytes_replicate_zero, fromBeBytes_cons_zero,
        fromBeBytes_beBytes]
      unfold toSigned
      split_ifs <;> omega
    · have hbit : ((beBytes 7 u ++ rest).getD 0 0 &&& 128 ≠ 0) := by
        rw [hhead, byte_and_128 _ hblt]
        omega
      simp only [fds_get_int_be, if_neg (by norm_num : ¬ (7 : Nat) = 8),
        if_neg (by norm_num : ¬ (7 : Nat) = 4), if_neg (by norm_num : ¬ (7 : Nat) = 2),
        if_neg (by norm_num : ¬ (7 : Nat) = 1),
        if_neg (by norm_num : ¬ ((7 : Nat) = 0 ∨ 7 > 8)), if_pos hbit, htake]
      norm_num [fromBeBytes_append, fromBeBytes_replicate_255, beBytes_length,
        fromBeBytes_cons, fromBeBytes_beBytes]
      unfold toSigned
      split_ifs <;> omega
  · norm_num at hu
    simp [fds_get_int_be, take_append_of_length _ rest _ (beBytes_length _ u),
      fromBeBytes_beBytes, Nat.mod_eq_of_lt hu]

/-- C1: for every width `s` in 1..8 (including the odd widths 3, 5, 6, 7) and
every unsigned value `v < 2^(8s)`, `fds_set_uint_be` returns `FDS_OK` and
`fds_get_uint_be` on the written bytes returns `FDS_OK` with exactly `v`;
likewise for every signed value in `[-2^(8s-1), 2^(8s-1))` via
`fds_set_int_be` / `fds_get_int_be`. -/
theorem int_roundtrip_all_widths (s : Nat) (h1 : 1 ≤ s) (h2 : s ≤ 8)
    (field : List Nat) :
    (∀ v : Nat, v < 2 ^ (8 * s) →
      (fds_set_uint_be field s v).2 = .OK ∧
      fds_get_uint_be (fds_set_uint_be field s v).1 s = .ok v) ∧
    (∀ v : Int, -(2 ^ (8 * s - 1) : Int) ≤ v → v < 2 ^ (8 * s - 1) →
      (fds_set_int_be field s v).2 = .OK ∧
      fds_get_int_be (fds_set_int_be field s v).1 s = .ok v) := by
  have hpow : (2 : Nat) ^ (8 * s) = 256 ^ s := by
    rw [pow_mul]
    norm_num
  constructor
  · intro v hv
    rw [hpow] at hv
    rw [set_uint_ok field s v h1 h2 hv]
    exact ⟨rfl, get_uint_beBytes s v h1 h2 hv (field.drop s)⟩
  · intro v hlo hhi
    rw [set_int_ok field s v h1 h2 hlo hhi]
    refine ⟨rfl, ?_⟩
    have hu : toUnsigned (8 * s) v < 256 ^ s := by
      have h := toUnsigned_lt (8 * s) v
      rwa [hpow] at h
    rw [get_int_beBytes s (toUnsigned (8 * s) v) h1 h2 hu (field.drop s)]
    rw [toSigned_toUnsigned (8 * s) v (by omega) hlo hhi]

/-- Witness for C1 at the odd width 3. -/
theorem int_roundtrip_all_widths_witness :
    ((fds_set_uint_be [9] 3 65537).2 = .OK ∧
      fds_get_uint_be (fds_set_uint_be [9] 3 65537).1 3 = .ok 65537) ∧
    ((fds_set_int_be [9] 3 (-3)).2 = .OK ∧
      fds_get_int_be (fds_set_int_be [9] 3 (-3)).1 3 = .ok (-3)) :=
  ⟨(int_roundtrip_all_widths 3 (by decide) (by decide) [9]).1 65537 (by decide),
   (int_roundtrip_all_widths 3 (by decide) (by decide) [9]).2 (-3) (by decide)
     (by decide)⟩

/-! ## Timestamp codecs -/

/-- Element-type tags from `iemgr.h`; the numbering 0..19 is pinned by the
conversion-table comments in `converters.c`, and the structured types follow
the documented enumeration order. -/
def FDS_ET_OCTET_ARRAY : Nat := 0
def FDS_ET_UNSIGNED_8 : Nat := 1
def FDS_ET_UNSIGNED_16 : Nat := 2
def FDS_ET_UNSIGNED_32 : Nat := 3
def FDS_ET_UNSIGNED_64 : Nat := 4
def FDS_ET_SIGNED_8 : Nat := 5
def FDS_ET_SIGNED_16 : Nat := 6
def FDS_ET_SIGNED_32 : Nat := 7
def FDS_ET_SIGNED_64 : Nat := 8
def FDS_ET_FLOAT_32 : Nat := 9
def FDS_ET_FLOAT_64 : Nat := 10
def FDS_ET_BOOLEAN : Nat := 11
def FDS_ET_MAC_ADDRESS : Nat := 12
def FDS_ET_STRING : Nat := 13
def FDS_ET_DATE_TIME_SECONDS : Nat := 14
def FDS_ET_DATE_TIME_MILLISECONDS : Nat := 15
def FDS_ET_DATE_TIME_MICROSECONDS : Nat := 16
def FDS_ET_DATE_TIME_NANOSECONDS : Nat := 17
def FDS_ET_IPV4_ADDRESS : Nat := 18
def FDS_ET_IPV6_ADDRESS : Nat := 19
def FDS_ET_BASIC_LIST : Nat := 20
def FDS_ET_SUB_TEMPLATE_LIST : Nat := 21
def FDS_ET_SUB_TEMPLATE_MULTILIST : Nat := 22

/-- `FDS_CONVERT_EPOCHS_DIFF`: seconds between the NTP and UNIX epochs. -/
def FDS_CONVERT_EPOCHS_DIFF : Nat := 2208988800

/-- `fds_set_datetime_lp_be` (converters.h): store a milliseconds-since-epoch
value in one of the four wire encodings. -/
def fds_set_datetime_lp_be (field : List Nat) (size : Nat) (type : Nat)
    (value : Nat) : List Nat × FdsRet :=
  if (size ≠ 8 ∨ type = FDS_ET_DATE_TIME_SECONDS) ∧
      (size ≠ 4 ∨ type ≠ FDS_ET_DATE_TIME_SECONDS) then
    (field, .ERR_ARG)
  else if type = FDS_ET_DATE_TIME_SECONDS then
    -- htonl(value / S1E3)
    (writeBytes field (beBytes 4 (value / 1000)), .OK)
  else if type = FDS_ET_DATE_TIME_MILLISECONDS then
    (writeBytes field (beBytes 8 value), .OK)
  else if type = FDS_ET_DATE_TIME_MICROSECONDS ∨
      type = FDS_ET_DATE_TIME_NANOSECONDS then
    -- NTP seconds and a 1/2^32 fraction of a second
    let secs := value / 1000 + FDS_CONVERT_EPOCHS_DIFF
    let fraction := (value % 1000) <<< 32 / 1000
    let fraction := if type = FDS_ET_DATE_TIME_MICROSECONDS then
        fraction &&& 0xFFFFF800 else fraction
    (writeBytes field (beBytes 4 secs ++ beBytes 4 fraction), .OK)
  else
    (field, .ERR_ARG)

/-- `fds_get_datetime_lp_be` (converters.h): read one of the four wire
encodings back as milliseconds since the UNIX epoch (uint64 arithmetic). -/
def fds_get_datetime_lp_be (field : List Nat) (size : Nat) (type : Nat) :
    Except FdsRet Nat :=
  if (size ≠ 8 ∨ type = FDS_ET_DATE_TIME_SECONDS) ∧
      (size ≠ 4 ∨ type ≠ FDS_ET_DATE_TIME_SECONDS) then
    .error .ERR_ARG
  else if type = FDS_ET_DATE_TIME_SECONDS then
    .ok (fromBeBytes (field.take 4) * 1000)
  else if type = FDS_ET_DATE_TIME_MILLISECONDS then
    .ok (fromBeBytes (field.take 8))
  else if type = FDS_ET_DATE_TIME_MICROSECONDS ∨
      type = FDS_ET_DATE_TIME_NANOSECONDS then
    -- (ntohl(parts[0]) - FDS_CONVERT_EPOCHS_DIFF) * S1E3 in uint64 arithmetic
    let result := (fromBeBytes (field.take 4) + 2 ^ 64 - FDS_CONVERT_EPOCHS_DIFF)
        % 2 ^ 64 * 1000 % 2 ^ 64
    let fraction := fromBeBytes ((field.drop 4).take 4)
    let fraction := if type = FDS_ET_DATE_TIME_MICROSECONDS then
        fraction &&& 0xFFFFF800 else fraction
    .ok ((result + fraction * 1000 / 2 ^ 32) % 2 ^ 64)
  else
    .error .ERR_ARG

/-- `fds_set_datetime_hp_be` (converters.h): store a (seconds, nanoseconds)
timespec in one of the four wire encodings.  `tv_sec` is the signed `time_t`
and `tv_nsec` the nanoseconds field (the source requires 0..999999999). -/
def fds_set_datetime_hp_be (field : List Nat) (size : Nat) (type : Nat)
    (tv_sec : Int) (tv_nsec : Nat) : List Nat × FdsRet :=
  if (size ≠ 8 ∨ type = FDS_ET_DATE_TIME_SECONDS) ∧
      (size ≠ 4 ∨ type ≠ FDS_ET_DATE_TIME_SECONDS) then
    (field, .ERR_ARG)
  else if type = FDS_ET_DATE_TIME_SECONDS then
    -- htonl(ts.tv_sec)
    (writeBytes field (beBytes 4 (toUnsigned 32 tv_sec)), .OK)
  else if type = FDS_ET_DATE_TIME_MILLISECONDS then
    -- htobe64(ts.tv_sec * S1E3 + ts.tv_nsec / S1E6), uint64 arithmetic
    (writeBytes field
      (beBytes 8 (toUnsigned 64 tv_sec * 1000 + tv_nsec / 1000000)), .OK)
  else if type = FDS_ET_DATE_TIME_MICROSECONDS ∨
      type = FDS_ET_DATE_TIME_NANOSECONDS then
    -- htonl((uint32_t) ts.tv_sec + FDS_CONVERT_EPOCHS_DIFF)
    let secs := toUnsigned 32 tv_sec + FDS_CONVERT_EPOCHS_DIFF
    let fraction := tv_nsec <<< 32 / 1000000000
    let fraction := if type = FDS_ET_DATE_TIME_MICROSECONDS then
        fraction &&& 0xFFFFF800 else fraction
    (writeBytes field (beBytes 4 secs ++ beBytes 4 fraction), .OK)
  else
    (field, .ERR_ARG)

/-- `fds_get_datetime_hp_be` (converters.h): read one of the four wire
encodings back as a (seconds, nanoseconds) timespec; the NTP fraction decode
uses the shift-by-31 / round-half-up / final-shift correction. -/
def fds_get_datetime_hp_be (field : List Nat) (size : Nat) (type : Nat) :
    Except FdsRet (Int × Nat) :=
  if (size ≠ 8 ∨ type = FDS_ET_DATE_TIME_SECONDS) ∧
      (size ≠ 4 ∨ type ≠ FDS_ET_DATE_TIME_SECONDS) then
    .error .ERR_ARG
  else if type = FDS_ET_DATE_TIME_SECONDS then
    .ok ((fromBeBytes (field.take 4) : Int), 0)
  else if type = FDS_ET_DATE_TIME_MILLISECONDS then
    let new_value := fromBeBytes (field.take 8)
    .ok ((new_value / 1000 : Nat), new_value % 1000 * 1000000)
  else if type = FDS_ET_DATE_TIME_MICROSECONDS ∨
      type = FDS_ET_DATE_TIME_NANOSECONDS then
    -- ntohl(parts[0]) - FDS_CONVERT_EPOCHS_DIFF: uint64 arithmetic assigned
    -- to the signed time_t
    let tv_sec := toSigned 64
      ((fromBeBytes (field.take 4) + 2 ^ 64 - FDS_CONVERT_EPOCHS_DIFF) % 2 ^ 64)
    let fraction := fromBeBytes ((field.drop 4).take 4)
    let fraction := if type = FDS_ET_DATE_TIME_MICROSECONDS then
        fraction &&& 0xFFFFF800 else fraction
    -- rounding error correction: shift only 31 times, round, shift once more
    let fraction := fraction * 1000000000
    let fraction := fraction >>> 31
    let fraction := if fraction &&& 1 = 1 then fraction + 1 else fraction
    .ok (tv_sec, fraction >>> 1)
  else
    .error .ERR_ARG

/-! ## Bit-level helper lemmas for the NTP fraction -/

theorem and_FFFFF800 (x : Nat) (hx : x < 2 ^ 32) :
    x &&& 0xFFFFF800 = x / 2 ^ 11 * 2 ^ 11 := by
  have key : x &&& 0xFFFFF800 = (x >>> 11) <<< 11 := by
    apply Nat.eq_of_testBit_eq
    intro i
    rw [Nat.testBit_and, Nat.testBit_shiftLeft, Nat.testBit_shiftRight]
    rcases lt_or_ge i 32 with hi | hi
    · interval_cases i <;> simp [Nat.testBit_to_div_mod]
    · have hx2i : x < 2 ^ i := lt_of_lt_of_le hx (Nat.pow_le_pow_right (by norm_num) hi)
      have hmask : (0xFFFFF800 : Nat) < 2 ^ i :=
        lt_of_lt_of_le (by norm_num) (Nat.pow_le_pow_right (by norm_num) hi)
      have hii : 11 + (i - 11) = i := by omega
      rw [hii, Nat.testBit_lt_two_pow hx2i, Nat.testBit_lt_two_pow hmask]
      simp
  rw [key, Nat.shiftLeft_eq, Nat.shiftRight_eq_div_pow]

/-- The shift-by-31 / round-half-up / final-shift sequence of
`fds_get_datetime_hp_be` computes a round-half-up division by `2^32`. -/
theorem round_half_up (x : Nat) :
    (if (x >>> 31) &&& 1 = 1 then x >>> 31 + 1 else x >>> 31) >>> 1 =
      (x + 2 ^ 31) / 2 ^ 32 := by
  simp only [Nat.shiftRight_eq_div_pow, Nat.and_one_is_mod]
  split_ifs with h <;> omega

/-- `true` exactly when an `Except` result is `.ok` (models "returns FDS_OK
and fills the output"). -/
def exceptOk {α : Type} : Except FdsRet α → Bool
  | .ok _ => true
  | .error _ => false

/-- The size/type combinations accepted by all four timestamp codecs. -/
def dtArgsValid (type size : Nat) : Prop :=
  (type = FDS_ET_DATE_TIME_SECONDS ∧ size = 4) ∨
  ((type = FDS_ET_DATE_TIME_MILLISECONDS ∨ type = FDS_ET_DATE_TIME_MICROSECONDS ∨
      type = FDS_ET_DATE_TIME_NANOSECONDS) ∧ size = 8)

/-- C7: each timestamp codec call succeeds exactly when the type is SECONDS
with size 4, or MILLISECONDS/MICROSECONDS/NANOSECONDS with size 8; every other
size/type combination returns `FDS_ERR_ARG` and writes nothing. -/
theorem datetime_codec_size_gate (field : List Nat) (size type value : Nat)
    (sec : Int) (nsec : Nat) :
    (¬ dtArgsValid type size →
      fds_set_datetime_lp_be field size type value = (field, .ERR_ARG) ∧
      fds_set_datetime_hp_be field size type sec nsec = (field, .ERR_ARG) ∧
      fds_get_datetime_lp_be field size type = .error .ERR_ARG ∧
      fds_get_datetime_hp_be field size type = .error .ERR_ARG) ∧
    (dtArgsValid type size →
      (fds_set_datetime_lp_be field size type value).2 = .OK ∧
      (fds_set_datetime_hp_be field size type sec nsec).2 = .OK ∧
      exceptOk (fds_get_datetime_lp_be field size type) = true ∧
      exceptOk (fds_get_datetime_hp_be field size type) = true) := by
  constructor
  · intro hnv
    unfold dtArgsValid at hnv
    simp only [FDS_ET_DATE_TIME_SECONDS, FDS_ET_DATE_TIME_MILLISECONDS,
      FDS_ET_DATE_TIME_MICROSECONDS, FDS_ET_DATE_TIME_NANOSECONDS] at hnv
    refine ⟨?_, ?_, ?_, ?_⟩ <;>
      · simp only [fds_set_datetime_lp_be, fds_set_datetime_hp_be,
          fds_get_datetime_lp_be, fds_get_datetime_hp_be,
          FDS_ET_DATE_TIME_SECONDS, FDS_ET_DATE_TIME_MILLISECONDS,
          FDS_ET_DATE_TIME_MICROSECONDS, FDS_ET_DATE_TIME_NANOSECONDS]
        split_ifs <;> first | rfl | omega
  · intro hv
    unfold dtArgsValid at hv
    rcases hv with ⟨ht, hs⟩ | ⟨ht, hs⟩
    · subst ht
      subst hs
      refine ⟨?_, ?_, ?_, ?_⟩ <;>
        simp [fds_set_datetime_lp_be, fds_set_datetime_hp_be,
          fds_get_datetime_lp_be, fds_get_datetime_hp_be, exceptOk,
          FDS_ET_DATE_TIME_SECONDS, FDS_ET_DATE_TIME_MILLISECONDS,
          FDS_ET_DATE_TIME_MICROSECONDS, FDS_ET_DATE_TIME_NANOSECONDS]
    · subst hs
      rcases ht with ht | ht | ht <;> subst ht <;>
        refine ⟨?_, ?_, ?_, ?_⟩ <;>
          simp [fds_set_datetime_lp_be, fds_set_datetime_hp_be,
            fds_get_datetime_lp_be, fds_get_datetime_hp_be, exceptOk,
            FDS_ET_DATE_TIME_SECONDS, FDS_ET_DATE_TIME_MILLISECONDS,
            FDS_ET_DATE_TIME_MICROSECONDS, FDS_ET_DATE_TIME_NANOSECONDS]

/-- Witness for C7: MILLISECONDS with size 4 is rejected without writing;
SECONDS with size 4 succeeds. -/
theorem datetime_codec_size_gate_witness :
    fds_set_datetime_lp_be [1, 2, 3, 4] 4 FDS_ET_DATE_TIME_MILLISECONDS 5 =
      ([1, 2, 3, 4], .ERR_ARG) ∧
    (fds_set_datetime_lp_be [1, 2, 3, 4] 4 FDS_ET_DATE_TIME_SECONDS 5).2 = .OK := by
  have h1 := (datetime_codec_size_gate [1, 2, 3, 4] 4 FDS_ET_DATE_TIME_MILLISECONDS
    5 0 0).1 (by simp [dtArgsValid, FDS_ET_DATE_TIME_SECONDS,
      FDS_ET_DATE_TIME_MILLISECONDS, FDS_ET_DATE_TIME_MICROSECONDS,
      FDS_ET_DATE_TIME_NANOSECONDS])
  have h2 := (datetime_codec_size_gate [1, 2, 3, 4] 4 FDS_ET_DATE_TIME_SECONDS
    5 0 0).2 (by simp [dtArgsValid])
  exact ⟨h1.1, h2.1⟩

/-- C2: encoding the timespec (1234567890 s, 500000000 ns) through the
NANOSECONDS NTP fixed-point path and decoding it back returns `FDS_OK` both
times and reproduces the pair exactly. -/
theorem ntp_nano_roundtrip_exact :
    (fds_set_datetime_hp_be (List.replicate 8 0) 8 FDS_ET_DATE_TIME_NANOSECONDS
        1234567890 500000000).2 = .OK ∧
    fds_get_datetime_hp_be
      (fds_set_datetime_hp_be (List.replicate 8 0) 8 FDS_ET_DATE_TIME_NANOSECONDS
        1234567890 500000000).1 8 FDS_ET_DATE_TIME_NANOSECONDS =
      .ok (1234567890, 500000000) := by
  exact ⟨by decide, by decide⟩

/-- C4 counterexample: encoding tv_nsec = 477 through the MICROSECONDS path
and decoding yields tv_nsec = 477 again, which is not a multiple of 1000. -/
theorem micro_decode_not_multiple_of_1000 :
    fds_get_datetime_hp_be
      (fds_set_datetime_hp_be (List.replicate 8 0) 8
        FDS_ET_DATE_TIME_MICROSECONDS 0 477).1 8
      FDS_ET_DATE_TIME_MICROSECONDS = .ok (0, 477) ∧
    ¬ (477 % 1000 = 0) := ⟨by decide, by decide⟩

theorem drop_append_of_length (l r : List Nat) (n : Nat) (h : l.length = n) :
    (l ++ r).drop n = r := by
  subst h
  exact List.drop_left l r

/-- Decoding an 8-byte NTP field through the MICROSECONDS path: the fraction
word is masked and converted by round-half-up division by `2^32`. -/
theorem get_hp_micro_bytes (A B : Nat) (hB : B < 2 ^ 32) (rest : List Nat) :
    fds_get_datetime_hp_be (beBytes 4 A ++ (beBytes 4 B ++ rest)) 8
        FDS_ET_DATE_TIME_MICROSECONDS =
      .ok (toSigned 64 ((A % 2 ^ 32 + 2 ^ 64 - 2208988800) % 2 ^ 64),
        ((B &&& 0xFFFFF800) * 1000000000 + 2 ^ 31) / 2 ^ 32) := by
  have htake1 := take_append_of_length (beBytes 4 A) (beBytes 4 B ++ rest) 4
    (beBytes_length 4 A)
  have hdrop := drop_append_of_length (beBytes 4 A) (beBytes 4 B ++ rest) 4
    (beBytes_length 4 A)
  have htake2 := take_append_of_length (beBytes 4 B) rest 4 (beBytes_length 4 B)
  have hBmod : B % 4294967296 = B := by omega
  simp only [fds_get_datetime_hp_be, FDS_ET_DATE_TIME_SECONDS,
    FDS_ET_DATE_TIME_MILLISECONDS, FDS_ET_DATE_TIME_MICROSECONDS,
    FDS_ET_DATE_TIME_NANOSECONDS, FDS_CONVERT_EPOCHS_DIFF]
  norm_num [htake1, hdrop, htake2, fromBeBytes_beBytes, hBmod,
    round_half_up ((B &&& 0xFFFFF800) * 1000000000)]
  simp only [Nat.shiftRight_eq_div_pow]
  split_ifs <;> omega

/-- C4 (amended): for every timespec with tv_nsec in [0, 999999999] encoded
with the MICROSECONDS path and decoded back, the decoded tv_nsec never
exceeds the original and differs from it by at most 1000 nanoseconds.  (The
original claim's further assertion that the decoded value is a multiple of
1000 is false: the masked NTP fraction has a granularity of 2^-21 s ≈ 477 ns,
see the counterexample.) -/
theorem micro_roundtrip_within_1000 (field : List Nat) (sec : Int) (nsec : Nat)
    (h : nsec ≤ 999999999) :
    ∃ s d, fds_get_datetime_hp_be
        (fds_set_datetime_hp_be field 8 FDS_ET_DATE_TIME_MICROSECONDS sec nsec).1
        8 FDS_ET_DATE_TIME_MICROSECONDS = .ok (s, d) ∧
      d ≤ nsec ∧ nsec ≤ d + 1000 := by
  have hf_lt : nsec <<< 32 / 1000000000 < 2 ^ 32 := by
    rw [Nat.shiftLeft_eq]
    omega
  have hmaskf := and_FFFFF800 (nsec <<< 32 / 1000000000) hf_lt
  have hfm_lt : nsec <<< 32 / 1000000000 &&& 0xFFFFF800 < 2 ^ 32 := by
    rw [hmaskf]
    omega
  have hidem : (nsec <<< 32 / 1000000000 &&& 0xFFFFF800) &&& 0xFFFFF800 =
      nsec <<< 32 / 1000000000 &&& 0xFFFFF800 := by
    rw [and_FFFFF800 _ hfm_lt, hmaskf]
    omega
  have hset : (fds_set_datetime_hp_be field 8 FDS_ET_DATE_TIME_MICROSECONDS
      sec nsec).1 =
      beBytes 4 (toUnsigned 32 sec + FDS_CONVERT_EPOCHS_DIFF) ++
        (beBytes 4 (nsec <<< 32 / 1000000000 &&& 0xFFFFF800) ++ field.drop 8) := by
    simp [fds_set_datetime_hp_be, FDS_ET_DATE_TIME_SECONDS,
      FDS_ET_DATE_TIME_MILLISECONDS, FDS_ET_DATE_TIME_MICROSECONDS,
      FDS_ET_DATE_TIME_NANOSECONDS, writeBytes, beBytes_length]
  rw [hset, get_hp_micro_bytes _ _ hfm_lt]
  refine ⟨_, _, rfl, ?_, ?_⟩
  · rw [hidem, hmaskf]
    rw [Nat.shiftLeft_eq]
    omega
  · rw [hidem, hmaskf]
    rw [Nat.shiftLeft_eq]
    omega

/-- Witness for the amended C4 at (sec 0, tv_nsec 477). -/
theorem micro_roundtrip_within_1000_witness :
    ∃ s d, fds_get_datetime_hp_be
        (fds_set_datetime_hp_be [] 8 FDS_ET_DATE_TIME_MICROSECONDS 0 477).1
        8 FDS_ET_DATE_TIME_MICROSECONDS = .ok (s, d) ∧
      d ≤ 477 ∧ 477 ≤ d + 1000 :=
  micro_roundtrip_within_1000 [] 0 477 (by decide)

/-! ## Text-renderer dispatch -/

/-- The renderer functions appearing in the conversion table of
`fds_field2str_be` (converters.c). -/
inductive ConverterFn where
  | octet_array2str
  | uint2str_be
  | int2str_be
  | float2str_be
  | wrapper_bool
  | mac2str
  | string2str
  | wrapper_ts_sec_be
  | wrapper_ts_msec_be
  | wrapper_ts_usec_be
  | wrapper_ts_nsec_be
  | wrapper_ip4
  | wrapper_ip6
  deriving DecidableEq, Repr

/-- The fixed conversion table of `fds_field2str_be`, indexed by the element
type tag; structured types (basicList, ...) are deliberately absent. -/
def field2str_table : List ConverterFn :=
  [.octet_array2str,      -- FDS_ET_OCTET_ARRAY
   .uint2str_be,          -- FDS_ET_UNSIGNED_8
   .uint2str_be,          -- FDS_ET_UNSIGNED_16
   .uint2str_be,          -- FDS_ET_UNSIGNED_32
   .uint2str_be,          -- FDS_ET_UNSIGNED_64
   .int2str_be,           -- FDS_ET_SIGNED_8
   .int2str_be,           -- FDS_ET_SIGNED_16
   .int2str_be,           -- FDS_ET_SIGNED_32
   .int2str_be,           -- FDS_ET_SIGNED_64
   .float2str_be,         -- FDS_ET_FLOAT_32
   .float2str_be,         -- FDS_ET_FLOAT_64
   .wrapper_bool,         -- FDS_ET_BOOLEAN
   .mac2str,              -- FDS_ET_MAC_ADDRESS
   .string2str,           -- FDS_ET_STRING
   .wrapper_ts_sec_be,    -- FDS_ET_DATE_TIME_SECONDS
   .wrapper_ts_msec_be,   -- FDS_ET_DATE_TIME_MILLISECONDS
   .wrapper_ts_usec_be,   -- FDS_ET_DATE_TIME_MICROSECONDS
   .wrapper_ts_nsec_be,   -- FDS_ET_DATE_TIME_NANOSECONDS
   .wrapper_ip4,          -- FDS_ET_IPV4_ADDRESS
   .wrapper_ip6]          -- FDS_ET_IPV6_ADDRESS

/-- The result of `fds_field2str_be` at the dispatch level: either the
unsupported-type error or the invocation of a table entry on the call's
arguments (the renderers themselves are modelled elsewhere). -/
inductive Field2StrOutcome where
  | err_format
  | dispatched (fn : ConverterFn) (field : List Nat) (size : Nat) (str_size : Nat)
  deriving DecidableEq

/-- `fds_field2str_be` (converters.c), at the dispatch level: a tag at or
beyond the table size returns `FDS_ERR_FORMAT`; otherwise the table entry is
called on the unchanged arguments. -/
def fds_field2str_be (field : List Nat) (size : Nat) (type : Nat)
    (str_size : Nat) : Field2StrOutcome :=
  if h : field2str_table.length ≤ type then
    .err_format -- Unsupported conversion type
  else
    .dispatched (field2str_table.get ⟨type, by omega⟩) field size str_size

/-- C9: every type tag at or beyond the 20-entry table (the structured types
basicList = 20, subTemplateList = 21, subTemplateMultiList = 22 included)
yields `FDS_ERR_FORMAT` regardless of the field bytes, size and output
buffer — never `FDS_ERR_ARG` and never a missing-entry fault — and every tag
inside the table is dispatched to its per-type renderer. -/
theorem field2str_dispatch_closed (field : List Nat) (size type str_size : Nat) :
    (20 ≤ type →
      fds_field2str_be field size type str_size = .err_format) ∧
    (∀ fn, field2str_table.get? type = some fn →
      fds_field2str_be field size type str_size =
        .dispatched fn field size str_size) := by
  have hlen : field2str_table.length = 20 := rfl
  constructor
  · intro h20
    unfold fds_field2str_be
    rw [dif_pos (by omega)]
  · intro fn hfn
    obtain ⟨hh, hget⟩ := List.get?_eq_some.mp hfn
    unfold fds_field2str_be
    rw [dif_neg (by omega)]
    rw [show field2str_table.get ⟨type, by omega⟩ = fn from hget]

/-- Witness for C9: basicList (tag 20) yields FORMAT, string (tag 13) is
dispatched to the string renderer. -/
theorem field2str_dispatch_closed_witness :
    fds_field2str_be [7] 1 FDS_ET_BASIC_LIST 4 = .err_format ∧
    fds_field2str_be [7] 1 FDS_ET_STRING 4 =
      .dispatched .string2str [7] 1 4 := by
  refine ⟨(field2str_dispatch_closed [7] 1 FDS_ET_BASIC_LIST 4).1 (by decide),
    (field2str_dispatch_closed [7] 1 FDS_ET_STRING 4).2 .string2str (by decide)⟩

/-! ## UTF-8 validation and escaping -/

/-- `utf8char_is_valid` (converters.c): length of the structurally valid
UTF-8 sequence starting at the head of `s`, or 0.  `s` is the remaining
input, so `s.length` plays the role of the `len` bound. -/
def utf8char_is_valid (s : List Nat) : Nat :=
  if s.getD 0 0 &&& 0x80 = 0 then 1              -- 0xxx xxxx
  else if s.getD 0 0 &&& 0xE0 = 0xC0 ∧ 2 ≤ s.length then -- 110x xxxx + 1 byte
    if s.getD 1 0 &&& 0xC0 = 0x80 then 2 else 0
  else if s.getD 0 0 &&& 0xF0 = 0xE0 ∧ 3 ≤ s.length then -- 1110 xxxx + 2 bytes
    if s.getD 1 0 &&& 0xC0 = 0x80 ∧ s.getD 2 0 &&& 0xC0 = 0x80 then 3 else 0
  else if s.getD 0 0 &&& 0xF8 = 0xF0 ∧ 4 ≤ s.length then -- 1111 0xxx + 3 bytes
    if s.getD 1 0 &&& 0xC0 = 0x80 ∧ s.getD 2 0 &&& 0xC0 = 0x80 ∧
        s.getD 3 0 &&& 0xC0 = 0x80 then 4 else 0
  else 0

/-- `utf8char_is_escapable` (converters.c): the one-byte escapes; returns the
replacement letter. -/
def utf8char_is_escapable (s : List Nat) : Option Nat :=
  if s.getD 0 0 &&& 0x80 ≠ 0 then
    none -- only 1-byte characters can be escapable
  else
    match s.getD 0 0 with
    | 7 => some 97    -- BEL → a
    | 10 => some 110  -- LF → n
    | 13 => some 114  -- CR → r
    | 9 => some 116   -- TAB → t
    | 8 => some 98    -- BS → b
    | 12 => some 102  -- FF → f
    | 11 => some 118  -- VT → v
    | _ => none

/-- `utf8char_is_control` (converters.c): C0 and C1 control bytes. -/
def utf8char_is_control (s : List Nat) : Bool :=
  if s.getD 0 0 ≤ 0x1F ∨ s.getD 0 0 = 0x7F then true -- C0
  else if 0x80 ≤ s.getD 0 0 ∧ s.getD 0 0 ≤ 0x9F then true -- C1
  else false

/-- The hexadecimal digit of `fds_string2str`:
`(hex < 10) ? ('0' + hex) : ('A' - 10 + hex)` — uppercase. -/
def hexDigit (h : Nat) : Nat :=
  if h < 10 then 48 + h else 55 + h

/-- The scanning loop of `fds_string2str` (converters.c).  `out` is the
output written so far (`pos_out` = `out.length`), `pending` the un-flushed
verbatim copy region `[pos_copy, pos_in)`, `inp` the input from `pos_in` on,
and `cap` = `str_size`.  `none` models `FDS_ERR_BUFFER`; `some l` models
success with `l` the bytes written before the terminating NUL. -/
def string2str_go (cap : Nat) (out pending inp : List Nat) : Option (List Nat) :=
  match inp with
  | [] =>
    -- copy the rest and add the termination symbol
    if pending.length + 1 > cap - out.length then none
    else some (out ++ pending)
  | b :: rest =>
    let s := b :: rest
    let v := utf8char_is_valid s
    let esc := utf8char_is_escapable s
    let ctrl := utf8char_is_control s
    let step := if v > 0 then v else 1
    if 0 < v ∧ esc = none ∧ ctrl = false then
      -- the character will just be copied: extend the copy region
      string2str_go cap out (pending ++ s.take step) (s.drop step)
    else
      -- flush the copy region first
      if pending.length > cap - out.length then none
      else
        let out2 := out ++ pending
        let rem := cap - out.length - pending.length
        match esc with
        | some subst =>
          if rem < 2 then none
          else string2str_go cap (out2 ++ [92, subst]) [] rest
        | none =>
          if ctrl then
            if rem < 4 then none
            else string2str_go cap
              (out2 ++ [92, 120, hexDigit ((b &&& 0xF0) >>> 4),
                hexDigit (b &&& 0x0F)]) [] rest
          else
            -- invalid character → U+FFFD
            if rem < 3 then none
            else string2str_go cap (out2 ++ [0xEF, 0xBF, 0xBD]) [] rest
termination_by inp.length
decreasing_by
  all_goals simp only [List.length_drop, List.length_cons]
  all_goals first
    | omega
    | (split_ifs <;> omega)

/-- `fds_string2str` (converters.c): the initial fast buffer check followed
by the scanning loop. -/
def fds_string2str (field : List Nat) (str_size : Nat) : Option (List Nat) :=
  if field.length + 1 > str_size then
    none -- the output buffer is definitely small
  else string2str_go str_size [] [] field

/-- The scanning loop of `fds_string_utf8check` (converters.c). -/
def utf8check_go : List Nat → Bool
  | [] => true
  | b :: rest =>
    let step := utf8char_is_valid (b :: rest)
    if step = 0 then false
    else utf8check_go ((b :: rest).drop step)
termination_by s => s.length
decreasing_by
  simp only [List.length_drop, List.length_cons]
  omega

/-- `fds_string_utf8check` (converters.c). -/
def fds_string_utf8check (field : List Nat) : FdsRet :=
  if utf8check_go field then .OK else .ERR_ARG

/-! ### Structural lemmas about the UTF-8 classifier -/

theorem valid_le_length (s : List Nat) (hs : s ≠ []) (k : Nat) (hk : 0 < k)
    (h : utf8char_is_valid s = k) : k ≤ s.length := by
  rcases s with _ | ⟨b0, t⟩
  · exact absurd rfl hs
  · unfold utf8char_is_valid at h
    simp only [List.getD_cons_zero, List.getD_cons_succ, List.getD_nil,
      List.length_cons, List.length_nil] at h ⊢
    split_ifs at h <;> omega

set_option maxHeartbeats 2000000 in
/-- A positive classification is stable under appending further input. -/
theorem valid_append (s t : List Nat) (hs : s ≠ []) (k : Nat) (hk : 0 < k)
    (h : utf8char_is_valid s = k) : utf8char_is_valid (s ++ t) = k := by
  rcases s with _ | ⟨b0, _ | ⟨b1, _ | ⟨b2, _ | ⟨b3, s4⟩⟩⟩⟩
  · exact absurd rfl hs
  all_goals
    unfold utf8char_is_valid at h ⊢
    simp only [List.cons_append, List.nil_append, List.getD_cons_zero,
      List.getD_cons_succ, List.getD_nil, List.length_cons, List.length_nil,
      List.length_append] at h ⊢
    split_ifs at h ⊢ <;> omega

set_option maxHeartbeats 2000000 in
/-- The first `k` bytes of a `k`-classified sequence form a complete valid
character in front of any continuation. -/
theorem valid_take_append (s u : List Nat) (k : Nat) (hk : 0 < k) (hs : s ≠ [])
    (h : utf8char_is_valid s = k) :
    utf8char_is_valid (s.take k ++ u) = k := by
  rcases s with _ | ⟨b0, _ | ⟨b1, _ | ⟨b2, _ | ⟨b3, s4⟩⟩⟩⟩
  · exact absurd rfl hs
  all_goals
    unfold utf8char_is_valid at h
    simp only [List.getD_cons_zero, List.getD_cons_succ, List.getD_nil,
      List.length_cons, List.length_nil] at h
    split_ifs at h <;>
      first
        | omega
        | (subst h
           unfold utf8char_is_valid
           simp only [List.take_succ_cons, List.take_zero, List.take_nil,
             List.cons_append, List.nil_append, List.getD_cons_zero,
             List.getD_cons_succ, List.getD_nil, List.length_cons,
             List.length_nil, List.length_append]
           split_ifs <;> omega)

theorem check_cons_unfold (l : List Nat) (hl : l ≠ []) (k : Nat) (hk : 0 < k)
    (hv : utf8char_is_valid l = k) (hrest : utf8check_go (l.drop k) = true) :
    utf8check_go l = true := by
  rcases l with _ | ⟨x, t⟩
  · exact absurd rfl hl
  · rw [utf8check_go]
    simp only [hv]
    rw [if_neg (by omega)]
    exact hrest

theorem check_nil : utf8check_go [] = true := by
  rw [utf8check_go]

/-- A complete valid character passes the checker on its own. -/
theorem check_chunk (s : List Nat) (k : Nat) (hk : 0 < k) (hs : s ≠ [])
    (h : utf8char_is_valid s = k) : utf8check_go (s.take k) = true := by
  have hv : utf8char_is_valid (s.take k ++ []) = k := valid_take_append s [] k hk hs h
  rw [List.append_nil] at hv
  have hne : s.take k ≠ [] := by
    rcases s with _ | ⟨b, t⟩
    · exact absurd rfl hs
    · rcases k with _ | k
      · omega
      · simp [List.take_succ_cons]
  apply check_cons_unfold (s.take k) hne k hk hv
  have hdrop : (s.take k).drop k = [] :=
    List.drop_eq_nil_of_le (by simp)
  rw [hdrop]
  exact check_nil

/-- Valid-checked byte sequences are closed under concatenation. -/
theorem check_append (a b : List Nat) (ha : utf8check_go a = true)
    (hb : utf8check_go b = true) : utf8check_go (a ++ b) = true := by
  revert ha
  induction a using utf8check_go.induct with
  | case1 =>
    intro _
    simpa using hb
  | case2 x rest step h0 =>
    intro ha
    rw [utf8check_go] at ha
    rw [if_pos h0] at ha
    simp at ha
  | case3 x rest step hne ih =>
    intro ha
    rw [utf8check_go] at ha
    rw [if_neg hne] at ha
    have hk : 0 < utf8char_is_valid (x :: rest) := Nat.pos_of_ne_zero hne
    have hlen := valid_le_length (x :: rest) (by simp) _ hk rfl
    have hva : utf8char_is_valid (x :: (rest ++ b)) = utf8char_is_valid (x :: rest) := by
      have h2 := valid_append (x :: rest) b (by simp) _ hk rfl
      simpa using h2
    rw [List.cons_append, utf8check_go]
    simp only [hva]
    rw [if_neg hne]
    have hdrop : (x :: (rest ++ b)).drop (utf8char_is_valid (x :: rest)) =
        (x :: rest).drop (utf8char_is_valid (x :: rest)) ++ b := by
      rw [← List.cons_append]
      exact List.drop_append_of_le_length hlen
    rw [hdrop]
    exact ih ha

set_option maxRecDepth 4096 in
theorem lt_128_and_128 : ∀ x : Nat, x < 128 → x &&& 128 = 0 := by
  decide

/-- Pure-ASCII byte lists always pass the checker. -/
theorem check_ascii (l : List Nat) (hl : ∀ x ∈ l, x &&& 128 = 0) :
    utf8check_go l = true := by
  induction l with
  | nil => exact check_nil
  | cons x t ih =>
    have hx : x &&& 128 = 0 := hl x (by simp)
    have hv : utf8char_is_valid (x :: t) = 1 := by
      unfold utf8char_is_valid
      simp only [List.getD_cons_zero]
      rw [if_pos hx]
    apply check_cons_unfold _ (by simp) 1 (by omega) hv
    simpa using ih (fun y hy => hl y (by simp [hy]))

theorem escapable_ascii (s : List Nat) (c : Nat)
    (h : utf8char_is_escapable s = some c) : c &&& 128 = 0 := by
  unfold utf8char_is_escapable at h
  split_ifs at h
  split at h <;>
    first
      | (simp only [Option.some.injEq] at h
         rw [← h]
         decide)
      | simp at h

theorem hexDigit_and_128 (h : Nat) (hh : h ≤ 15) : hexDigit h &&& 128 = 0 := by
  apply lt_128_and_128
  unfold hexDigit
  split_ifs <;> omega

theorem and240_shr4_le (b : Nat) : (b &&& 240) >>> 4 ≤ 15 := by
  have h1 : b &&& 240 ≤ 240 := Nat.and_le_right
  rw [Nat.shiftRight_eq_div_pow]
  omega

theorem and15_le (b : Nat) : b &&& 15 ≤ 15 := Nat.and_le_right

theorem check_fffd : utf8check_go [0xEF, 0xBF, 0xBD] = true := by
  have hv : utf8char_is_valid [0xEF, 0xBF, 0xBD] = 3 := by decide
  apply check_cons_unfold _ (by simp) 3 (by omega) hv
  simpa using check_nil

/-- Every successful output of the escaping loop passes the UTF-8 checker,
provided the already-written output and the pending copy region do. -/
theorem string2str_go_check (cap : Nat) (out pending inp : List Nat) :
    ∀ res : List Nat, utf8check_go out = true → utf8check_go pending = true →
      string2str_go cap out pending inp = some res → utf8check_go res = true := by
  induction out, pending, inp using string2str_go.induct cap with
  | case1 out pending hbuf =>
    intro res _ _ h
    rw [string2str_go] at h
    rw [if_pos hbuf] at h
    simp at h
  | case2 out pending hbuf =>
    intro res hout hpend h
    rw [string2str_go] at h
    rw [if_neg hbuf] at h
    simp only [Option.some.injEq] at h
    subst h
    exact check_append _ _ hout hpend
  | case3 out pending b rest s v esc ctrl step hcond ih =>
    intro res hout hpend h
    rw [string2str_go] at h
    rw [if_pos hcond] at h
    have hchunk : utf8check_go ((b :: rest).take step) = true := by
      have hstep : step = utf8char_is_valid (b :: rest) := if_pos hcond.1
      rw [hstep]
      exact check_chunk (b :: rest) _ hcond.1 (by simp) rfl
    exact ih res hout (check_append _ _ hpend hchunk) h
  | case4 out pending b rest s v esc ctrl hcond hbuf =>
    intro res _ _ h
    rw [string2str_go] at h
    rw [if_neg hcond, if_pos hbuf] at h
    simp at h
  | case5 out pending b rest s v esc ctrl hcond hbuf rem subst hesc hrem =>
    intro res _ _ h
    rw [string2str_go] at h
    rw [if_neg hcond, if_neg hbuf] at h
    have hesc2 : utf8char_is_escapable (b :: rest) = some subst := hesc
    have hrem2 : cap - out.length - pending.length < 2 := hrem
    simp only [hesc2] at h
    rw [if_pos hrem2] at h
    simp at h
  | case6 out pending b rest s v esc ctrl hcond hbuf out2 rem subst hesc hrem ih =>
    intro res hout hpend h
    rw [string2str_go] at h
    rw [if_neg hcond, if_neg hbuf] at h
    have hesc2 : utf8char_is_escapable (b :: rest) = some subst := hesc
    have hrem2 : ¬ (cap - out.length - pending.length < 2) := hrem
    simp only [hesc2] at h
    rw [if_neg hrem2] at h
    have hsub : utf8check_go [92, subst] = true := by
      apply check_ascii
      intro x hx
      simp only [List.mem_cons, List.not_mem_nil, or_false] at hx
      rcases hx with rfl | rfl
      · decide
      · exact escapable_ascii _ _ hesc2
    exact ih res (check_append _ _ (check_append _ _ hout hpend) hsub) check_nil h
  | case7 out pending b rest s v esc ctrl hcond hbuf rem hesc hctrl hrem =>
    intro res _ _ h
    rw [string2str_go] at h
    rw [if_neg hcond, if_neg hbuf] at h
    have hesc2 : utf8char_is_escapable (b :: rest) = none := hesc
    have hctrl2 : utf8char_is_control (b :: rest) = true := hctrl
    have hrem2 : cap - out.length - pending.length < 4 := hrem
    simp only [hesc2] at h
    rw [if_pos hctrl2, if_pos hrem2] at h
    simp at h
  | case8 out pending b rest s v esc ctrl hcond hbuf out2 rem hesc hctrl hrem ih =>
    intro res hout hpend h
    rw [string2str_go] at h
    rw [if_neg hcond, if_neg hbuf] at h
    have hesc2 : utf8char_is_escapable (b :: rest) = none := hesc
    have hctrl2 : utf8char_is_control (b :: rest) = true := hctrl
    have hrem2 : ¬ (cap - out.length - pending.length < 4) := hrem
    simp only [hesc2] at h
    rw [if_pos hctrl2, if_neg hrem2] at h
    have hsub : utf8check_go
        [92, 120, hexDigit ((b &&& 240) >>> 4), hexDigit (b &&& 15)] = true := by
      apply check_ascii
      intro x hx
      simp only [List.mem_cons, List.not_mem_nil, or_false] at hx
      rcases hx with rfl | rfl | rfl | rfl
      · decide
      · decide
      · exact hexDigit_and_128 _ (and240_shr4_le b)
      · exact hexDigit_and_128 _ (and15_le b)
    exact ih res (check_append _ _ (check_append _ _ hout hpend) hsub) check_nil h
  | case9 out pending b rest s v esc ctrl hcond hbuf rem hesc hctrl hrem =>
    intro res _ _ h
    rw [string2str_go] at h
    rw [if_neg hcond, if_neg hbuf] at h
    have hesc2 : utf8char_is_escapable (b :: rest) = none := hesc
    have hctrl1 : ¬ (utf8char_is_control (b :: rest) = true) := hctrl
    have hctrl2 : utf8char_is_control (b :: rest) = false := by
      simpa using hctrl1
    have hrem2 : cap - out.length - pending.length < 3 := hrem
    simp only [hesc2, hctrl2] at h
    rw [if_pos hrem2] at h
    simp at h
  | case10 out pending b rest s v esc ctrl hcond hbuf out2 rem hesc hctrl hrem ih =>
    intro res hout hpend h
    rw [string2str_go] at h
    rw [if_neg hcond, if_neg hbuf] at h
    have hesc2 : utf8char_is_escapable (b :: rest) = none := hesc
    have hctrl1 : ¬ (utf8char_is_control (b :: rest) = true) := hctrl
    have hctrl2 : utf8char_is_control (b :: rest) = false := by
      simpa using hctrl1
    have hrem2 : ¬ (cap - out.length - pending.length < 3) := hrem
    simp only [hesc2, hctrl2] at h
    rw [if_neg hrem2] at h
    exact ih res (check_append _ _ (check_append _ _ hout hpend) check_fffd)
      check_nil h

/-- C3: whenever `fds_string2str` succeeds (returns a non-negative count),
the bytes it wrote pass `fds_string_utf8check`: the escaper only ever
produces structurally valid UTF-8. -/
theorem string2str_output_valid_utf8 (field : List Nat) (str_size : Nat)
    (res : List Nat) (h : fds_string2str field str_size = some res) :
    fds_string_utf8check res = .OK := by
  unfold fds_string2str at h
  split_ifs at h
  have hres := string2str_go_check str_size [] [] field res check_nil check_nil h
  unfold fds_string_utf8check
  rw [hres]
  simp

/-- Witness for C3: a concrete escaper run whose output passes the checker. -/
theorem string2str_output_valid_utf8_witness :
    fds_string_utf8check [0xEF, 0xBF, 0xBD] = .OK := by
  have heval : fds_string2str [0xC3] 8 = some [0xEF, 0xBF, 0xBD] := by
    have hv : utf8char_is_valid [0xC3] = 0 := by decide
    have he : utf8char_is_escapable [0xC3] = none := by decide
    have hc : utf8char_is_control [0xC3] = false := by decide
    simp [fds_string2str, string2str_go, hv, he, hc]
  exact string2str_output_valid_utf8 [0xC3] 8 _ heval

/-- C6: escaping the 4-byte input 41 0A C3 28 with sufficient capacity
(at least 8 bytes, for the 7 output bytes plus the terminating NUL) succeeds,
returns 7, and writes exactly 41 5C 6E EF BF BD 28: 'A' is copied verbatim,
LF becomes backslash-n, the invalid lead byte C3 becomes the 3-byte U+FFFD
and consumes exactly one input byte, so 28 is then processed as valid. -/
theorem string2str_example_escape (cap : Nat) (hcap : 8 ≤ cap) :
    fds_string2str [0x41, 0x0A, 0xC3, 0x28] cap =
      some [0x41, 0x5C, 0x6E, 0xEF, 0xBF, 0xBD, 0x28] ∧
    ([0x41, 0x5C, 0x6E, 0xEF, 0xBF, 0xBD, 0x28] : List Nat).length = 7 := by
  refine ⟨?_, by decide⟩
  have hv0 : utf8char_is_valid [65, 10, 195, 40] = 1 := by decide
  have he0 : utf8char_is_escapable [65, 10, 195, 40] = none := by decide
  have hc0 : utf8char_is_control [65, 10, 195, 40] = false := by decide
  have hv1 : utf8char_is_valid [10, 195, 40] = 1 := by decide
  have he1 : utf8char_is_escapable [10, 195, 40] = some 110 := by decide
  have hv2 : utf8char_is_valid [195, 40] = 0 := by decide
  have he2 : utf8char_is_escapable [195, 40] = none := by decide
  have hc2 : utf8char_is_control [195, 40] = false := by decide
  have hv3 : utf8char_is_valid [40] = 1 := by decide
  have he3 : utf8char_is_escapable [40] = none := by decide
  have hc3 : utf8char_is_control [40] = false := by decide
  simp [fds_string2str, string2str_go, hv0, he0, hc0, hv1, he1, hv2, he2, hc2,
    hv3, he3, hc3]
  omega

/-- Witness for C6 at capacity 16. -/
theorem string2str_example_escape_witness :
    fds_string2str [0x41, 0x0A, 0xC3, 0x28] 16 =
      some [0x41, 0x5C, 0x6E, 0xEF, 0xBF, 0xBD, 0x28] ∧
    ([0x41, 0x5C, 0x6E, 0xEF, 0xBF, 0xBD, 0x28] : List Nat).length = 7 :=
  string2str_example_escape 16 (by decide)

set_option maxRecDepth 4096 in
/-- Bit-level facts about C1 control bytes 0x80..0x9F: the sign bit is set
and none of the multi-byte lead patterns match. -/
theorem c1_byte_bits : ∀ b : Nat, b < 160 → 128 ≤ b →
    b &&& 128 ≠ 0 ∧ b &&& 224 ≠ 192 ∧ b &&& 240 ≠ 224 ∧ b &&& 248 ≠ 240 := by
  decide

/-- C10: a byte in 0x80..0x9F at a character-start position is an invalid
UTF-8 lead byte, yet the control-character classification takes precedence:
the escaper emits the 4-byte uppercase backslash-x-H-H escape and consumes
exactly one input byte — it does not emit the U+FFFD replacement. -/
theorem c1_control_takes_precedence (cap : Nat) (out pending rest : List Nat)
    (b : Nat) (h1 : 0x80 ≤ b) (h2 : b ≤ 0x9F) :
    utf8char_is_valid (b :: rest) = 0 ∧
    string2str_go cap out pending (b :: rest) =
      (if pending.length > cap - out.length then none
       else if cap - out.length - pending.length < 4 then none
       else string2str_go cap
         ((out ++ pending) ++
           [0x5C, 0x78, hexDigit ((b &&& 0xF0) >>> 4), hexDigit (b &&& 0x0F)])
         [] rest) := by
  have hbits := c1_byte_bits b (by omega) h1
  have hv : utf8char_is_valid (b :: rest) = 0 := by
    unfold utf8char_is_valid
    simp only [List.getD_cons_zero]
    rw [if_neg hbits.1, if_neg (fun hc => hbits.2.1 hc.1),
      if_neg (fun hc => hbits.2.2.1 hc.1), if_neg (fun hc => hbits.2.2.2 hc.1)]
  have he : utf8char_is_escapable (b :: rest) = none := by
    unfold utf8char_is_escapable
    simp only [List.getD_cons_zero]
    rw [if_pos hbits.1]
  have hc : utf8char_is_control (b :: rest) = true := by
    unfold utf8char_is_control
    simp only [List.getD_cons_zero]
    rw [if_neg (by omega), if_pos ⟨h1, h2⟩]
  refine ⟨hv, ?_⟩
  have hcond : ¬ (0 < utf8char_is_valid (b :: rest) ∧
      utf8char_is_escapable (b :: rest) = none ∧
      utf8char_is_control (b :: rest) = false) := by
    simp [hv, hc]
  rw [string2str_go]
  rw [if_neg hcond]
  by_cases hbuf : pending.length > cap - out.length
  · rw [if_pos hbuf, if_pos hbuf]
  · rw [if_neg hbuf, if_neg hbuf]
    simp only [he]
    rw [if_pos hc]

/-- Witness for C10 at byte 0x85. -/
theorem c1_control_takes_precedence_witness :
    utf8char_is_valid [0x85] = 0 ∧
    string2str_go 10 [] [] [0x85] =
      (if ([] : List Nat).length > 10 - ([] : List Nat).length then none
       else if 10 - ([] : List Nat).length - ([] : List Nat).length < 4 then none
       else string2str_go 10
         ((([] : List Nat) ++ ([] : List Nat)) ++
           [0x5C, 0x78, hexDigit ((0x85 &&& 0xF0) >>> 4), hexDigit (0x85 &&& 0x0F)])
         [] []) :=
  c1_control_takes_precedence 10 [] [] [] 0x85 (by decide) (by decide)
